import Mathlib

/-!
Verification of the MyWish NEP-17 token contract (NEP17.py).

The contract is modelled as a deterministic state machine. NEO storage is
modelled as an association list from account addresses (20-byte strings,
modelled as lists of bytes) to integer balances, together with scalar cells
for the total supply (storage key b'total_supply') and the minting gate
(storage key b'continue_minting'); those keys are 12 and 16 bytes long, so
they can never collide with a 20-byte account key and are represented as
separate record fields. `get(k).to_int()` on an absent key yields 0, which
is mirrored by `lookupBal` defaulting to 0.

Host interop (check_witness, calling_script_hash, the transaction sender
and contract resolution) is modelled by an `Env` record. Operations that
can abort (a failed `assert`, or `abort()`) return `none`; on NEO an abort
rolls the transaction back, so an aborted call has no successor state.
Emitted `Transfer` events and `onNEP17Payment` contract calls made by
`post_transfer` are collected in the operation result.
-/

namespace NEP17

/-- A byte string; account addresses are the 20-byte ones (UInt160). -/
abbrev Addr := List Nat

/-- The uninterpreted `data` argument threaded to the payment hook; Python's
`None` is `Option.none`. -/
abbrev Data := Option (List Nat)

/-- The sparse balance storage: one entry per account that has a stored
balance. `get(account).to_int()` is `lookupBal`, `put` is `putBal`,
`delete` is `delBal`. -/
abbrev BalStore := List (Addr × Int)

/-- Storage read: `get(account).to_int()`; an absent key reads as 0. -/
def lookupBal : BalStore → Addr → Int
  | [], _ => 0
  | (k, v) :: rest, a => if k = a then v else lookupBal rest a

/-- Storage write: `put(account, v)` replaces the entry for the key, or
appends one if the key is absent. -/
def putBal : BalStore → Addr → Int → BalStore
  | [], a, v => [(a, v)]
  | (k, w) :: rest, a, v => if k = a then (a, v) :: rest else (k, w) :: putBal rest a v

/-- Storage delete: `delete(account)` removes the entry for the key. -/
def delBal : BalStore → Addr → BalStore
  | [], _ => []
  | (k, w) :: rest, a => if k = a then rest else (k, w) :: delBal rest a

/-- Sum of all stored balances. -/
def sumBal (m : BalStore) : Int := (m.map Prod.snd).sum

/-- A `Transfer` event as fired by `on_transfer`; `none` is the sentinel
"no sender" / "no recipient" party (Python `None`). -/
structure TransferEvt where
  fromA : Option Addr
  toA : Option Addr
  amount : Int
deriving DecidableEq, Repr

/-- One `onNEP17Payment` contract call made by `post_transfer` via
`call_contract(to, 'onNEP17Payment', [from, amount, data])`. -/
structure HookCall where
  fromA : Option Addr
  toA : Addr
  amount : Int
  data : Data
deriving DecidableEq, Repr

/-- The persistent contract state: the sparse balance map plus the
`total_supply` and `continue_minting` storage cells. -/
structure ContractState where
  balances : BalStore
  totalSupply : Int
  continueMinting : Bool
deriving DecidableEq, Repr

/-- The host environment of one invocation: the templated OWNER constant,
`calling_script_hash`, the transaction sender (`script_container.sender`),
the `check_witness` oracle and the `get_contract` is-a-contract test. -/
structure Env where
  owner : Addr
  callingScriptHash : Addr
  txSender : Addr
  witness : Addr → Bool
  isContract : Addr → Bool

/-- Result of a completed (non-aborted) operation: returned value, new
state, events fired and payment-hook contract calls made, in order. -/
structure OpResult (α : Type) where
  ret : α
  state : ContractState
  events : List TransferEvt
  hooks : List HookCall
deriving DecidableEq

/-- `totalSupply()`: reads the `total_supply` storage cell. -/
def totalSupply (s : ContractState) : Int := s.totalSupply

/-- `balanceOf(account)`: asserts the address is exactly 20 bytes (abort
otherwise), then reads the account's storage entry (0 if absent). -/
def balanceOf (s : ContractState) (account : Addr) : Option Int :=
  if account.length = 20 then some (lookupBal s.balances account) else none

/-- `post_transfer(from, to, amount, data)`: when `to` is not `None` and
is a deployed contract, calls its `onNEP17Payment(from, amount, data)`.
The value is the list of contract calls made. -/
def post_transfer (env : Env) (from_address : Option Addr) (to_address : Option Addr)
    (amount : Int) (data : Data) : List HookCall :=
  match to_address with
  | none => []
  | some t =>
      if env.isContract t then
        [{ fromA := from_address, toA := t, amount := amount, data := data }]
      else []

/-- `transfer(from_address, to_address, amount, data)`: asserts both
addresses are 20 bytes and `amount >= 0` (abort otherwise); returns
`false` on insufficient balance or failed witness check; otherwise
debits/credits unless `from == to` or `amount == 0`, always fires the
`Transfer` event and runs `post_transfer`, and returns `true`. -/
def transfer (env : Env) (s : ContractState) (from_address to_address : Addr)
    (amount : Int) (data : Data) : Option (OpResult Bool) :=
  if from_address.length = 20 ∧ to_address.length = 20 then
    if amount ≥ 0 then
      let from_balance := lookupBal s.balances from_address
      if from_balance < amount then
        some { ret := false, state := s, events := [], hooks := [] }
      else if from_address ≠ env.callingScriptHash ∧ ¬ env.witness from_address = true then
        some { ret := false, state := s, events := [], hooks := [] }
      else
        let balances1 :=
          if from_address ≠ to_address ∧ amount ≠ 0 then
            let afterDebit :=
              if from_balance = amount then delBal s.balances from_address
              else putBal s.balances from_address (from_balance - amount)
            let to_balance := lookupBal afterDebit to_address
            putBal afterDebit to_address (to_balance + amount)
          else s.balances
        some { ret := true,
               state := { s with balances := balances1 },
               events := [{ fromA := some from_address, toA := some to_address,
                            amount := amount }],
               hooks := post_transfer env (some from_address) (some to_address) amount data }
    else none
  else none

/-- `finishMinting()`: returns `false` if the gate is already closed,
otherwise writes `continue_minting := false` and returns `true`. Never
aborts; no event, no hook. -/
def finishMinting (s : ContractState) : OpResult Bool :=
  if s.continueMinting then
    { ret := true, state := { s with continueMinting := false }, events := [], hooks := [] }
  else
    { ret := false, state := s, events := [], hooks := [] }

/-- `mint(account, amount)`: asserts `amount >= 0 and check_witness(OWNER)
and continue_minting` (abort otherwise). When `amount != 0` it reads the
supply and `balanceOf(account)` (whose 20-byte assertion can abort),
writes both back incremented, fires `Transfer(None, account, amount)` and
runs `post_transfer(None, account, amount, None)`. -/
def mint (env : Env) (s : ContractState) (account : Addr) (amount : Int) :
    Option (OpResult Unit) :=
  if amount ≥ 0 ∧ env.witness env.owner = true ∧ s.continueMinting = true then
    if amount ≠ 0 then
      match balanceOf s account with
      | some account_balance =>
          some { ret := (),
                 state := { s with
                            totalSupply := s.totalSupply + amount,
                            balances := putBal s.balances account (account_balance + amount) },
                 events := [{ fromA := none, toA := some account, amount := amount }],
                 hooks := post_transfer env none (some account) amount none }
      | none => none
    else
      some { ret := (), state := s, events := [], hooks := [] }
  else none

/-- `burn(amount)`: asserts `amount >= 0` (abort otherwise). When
`amount != 0`, the account is the transaction sender; asserts its balance
is at least `amount` (abort otherwise), decrements the supply, decrements
the balance (deleting the entry on exact exhaustion), fires
`Transfer(account, None, amount)` and runs
`post_transfer(account, None, amount, None)`. -/
def burn (env : Env) (s : ContractState) (amount : Int) : Option (OpResult Unit) :=
  if amount ≥ 0 then
    if amount ≠ 0 then
      match balanceOf s env.txSender with
      | some account_balance =>
          if account_balance ≥ amount then
            some { ret := (),
                   state := { s with
                              totalSupply := s.totalSupply - amount,
                              balances :=
                                if account_balance = amount then
                                  delBal s.balances env.txSender
                                else
                                  putBal s.balances env.txSender (account_balance - amount) },
                   events := [{ fromA := some env.txSender, toA := none, amount := amount }],
                   hooks := post_transfer env (some env.txSender) none amount none }
          else none
      | none => none
    else
      some { ret := (), state := s, events := [], hooks := [] }
  else none

/-- The `_deploy` loop over the templated HOLDERS table: for each holder,
`put(holder, amount)`, fire `Transfer(None, holder, amount)` and add the
amount into the running total supply. Arguments: remaining holders, the
balance storage so far, the running total. Returns the final storage, the
final total and the events fired. -/
def deployLoop : List (Addr × Int) → BalStore → Int → BalStore × Int × List TransferEvt
  | [], store, ts => (store, ts, [])
  | (holder, amount) :: rest, store, ts =>
      let r := deployLoop rest (putBal store holder amount) (ts + amount)
      (r.1, r.2.1, { fromA := none, toA := some holder, amount := amount } :: r.2.2)

/-- `_deploy(data, update)`: runs the HOLDERS loop on empty storage, then
writes the templated `continue_minting` configuration value and the
accumulated total supply. `HOLDERS` is a Python dict, so its keys are
pairwise distinct. -/
def deploy (holders : List (Addr × Int)) (continue_minting : Bool) :
    ContractState × List TransferEvt :=
  let r := deployLoop holders [] 0
  ({ balances := r.1, totalSupply := r.2.1, continueMinting := continue_minting }, r.2.2)

/-- One completed post-deployment invocation of a state-changing public
method. `symbol`, `decimals`, `totalSupply` and `balanceOf` read no
storage cell destructively and write nothing, and `onNEP17Payment` always
aborts, so they produce no state change; aborted calls (`none`) have no
successor state either. -/
inductive Step : ContractState → ContractState → Prop
  | ofTransfer (env : Env) (s : ContractState) (from_address to_address : Addr)
      (amount : Int) (data : Data) (r : OpResult Bool) :
      transfer env s from_address to_address amount data = some r → Step s r.state
  | ofMint (env : Env) (s : ContractState) (account : Addr) (amount : Int)
      (r : OpResult Unit) : mint env s account amount = some r → Step s r.state
  | ofBurn (env : Env) (s : ContractState) (amount : Int) (r : OpResult Unit) :
      burn env s amount = some r → Step s r.state
  | ofFinishMinting (s : ContractState) : Step s (finishMinting s).state

/-! ### Concrete fixtures for instantiating the theorems -/

/-- A sample 20-byte account address. -/
def addrA : Addr := List.replicate 20 1

/-- A second sample 20-byte account address. -/
def addrB : Addr := List.replicate 20 2

/-- A sample 20-byte owner address. -/
def addrO : Addr := List.replicate 20 9

/-- An environment in which every witness check succeeds, the calling
script hash and transaction sender are `addrA`, and no address is a
contract. -/
def envAllow : Env :=
  { owner := addrO, callingScriptHash := addrA, txSender := addrA,
    witness := fun _ => true, isContract := fun _ => false }

/-- An environment in which every witness check fails and the calling
script hash is the owner address, so a transfer from `addrA` is neither
the caller nor witnessed. -/
def envDeny : Env :=
  { owner := addrO, callingScriptHash := addrO, txSender := addrA,
    witness := fun _ => false, isContract := fun _ => false }

/-! ### Storage lemmas -/

lemma lookupBal_putBal_self (m : BalStore) (k : Addr) (v : Int) :
    lookupBal (putBal m k v) k = v := by
  induction m with
  | nil => simp [putBal, lookupBal]
  | cons p rest ih =>
      obtain ⟨k0, w⟩ := p
      by_cases h : k0 = k <;> simp [putBal, lookupBal, h, ih]

lemma lookupBal_putBal_ne (m : BalStore) (k k' : Addr) (v : Int) (h : k ≠ k') :
    lookupBal (putBal m k v) k' = lookupBal m k' := by
  induction m with
  | nil => simp [putBal, lookupBal, h]
  | cons p rest ih =>
      obtain ⟨k0, w⟩ := p
      by_cases h0 : k0 = k
      · subst h0
        simp [putBal, lookupBal, h]
      · simp [putBal, lookupBal, h0, ih]

lemma sumBal_putBal (m : BalStore) (k : Addr) (v : Int) :
    sumBal (putBal m k v) = sumBal m + v - lookupBal m k := by
  induction m with
  | nil => simp [putBal, sumBal, lookupBal]
  | cons p rest ih =>
      obtain ⟨k0, w⟩ := p
      by_cases h : k0 = k
      · subst h
        simp [putBal, sumBal, lookupBal]
        ring
      · simp [putBal, sumBal, lookupBal, h] at ih ⊢
        omega

lemma sumBal_delBal (m : BalStore) (k : Addr) :
    sumBal (delBal m k) = sumBal m - lookupBal m k := by
  induction m with
  | nil => simp [delBal, sumBal, lookupBal]
  | cons p rest ih =>
      obtain ⟨k0, w⟩ := p
      by_cases h : k0 = k
      · subst h
        simp [delBal, sumBal, lookupBal]
      · simp [delBal, sumBal, lookupBal, h] at ih ⊢
        omega

lemma mem_putBal (m : BalStore) (k : Addr) (v : Int) (p : Addr × Int)
    (hp : p ∈ putBal m k v) : p ∈ m ∨ p = (k, v) := by
  induction m with
  | nil => simp [putBal] at hp; simp [hp]
  | cons q rest ih =>
      obtain ⟨k0, w⟩ := q
      by_cases h : k0 = k
      · subst h
        simp [putBal] at hp
        rcases hp with hp | hp
        · right; simp [hp]
        · left; simp [hp]
      · simp [putBal, h] at hp
        rcases hp with hp | hp
        · left; simp [hp]
        · rcases ih hp with h1 | h1
          · left; simp [h1]
          · right; exact h1

lemma mem_delBal (m : BalStore) (k : Addr) (p : Addr × Int)
    (hp : p ∈ delBal m k) : p ∈ m := by
  induction m with
  | nil => simp [delBal] at hp
  | cons q rest ih =>
      obtain ⟨k0, w⟩ := q
      by_cases h : k0 = k
      · simp [delBal, h] at hp
        simp [hp]
      · simp [delBal, h] at hp
        rcases hp with hp | hp
        · simp [hp]
        · simp [ih hp]

lemma lookupBal_nonneg (m : BalStore) (k : Addr) (hpos : ∀ p ∈ m, 0 < p.2) :
    0 ≤ lookupBal m k := by
  induction m with
  | nil => simp [lookupBal]
  | cons q rest ih =>
      obtain ⟨k0, w⟩ := q
      by_cases h : k0 = k
      · subst h
        have := hpos (k0, w) (by simp)
        simp [lookupBal] at this ⊢
        omega
      · simp [lookupBal, h]
        exact ih (fun p hp => hpos p (by simp [hp]))

lemma lookupBal_eq_zero_of_not_mem (m : BalStore) (k : Addr)
    (h : k ∉ m.map Prod.fst) : lookupBal m k = 0 := by
  induction m with
  | nil => simp [lookupBal]
  | cons q rest ih =>
      obtain ⟨k0, w⟩ := q
      rw [List.map_cons, List.mem_cons] at h
      push_neg at h
      have h1 : k0 ≠ k := fun hk => h.1 hk.symm
      simp [lookupBal, h1]
      exact ih h.2

lemma mem_keys_putBal (m : BalStore) (k k' : Addr) (v : Int)
    (h : k' ∈ (putBal m k v).map Prod.fst) : k' ∈ m.map Prod.fst ∨ k' = k := by
  rcases List.mem_map.mp h with ⟨p, hp, hk⟩
  rcases mem_putBal m k v p hp with h1 | h1
  · exact Or.inl (List.mem_map.mpr ⟨p, h1, hk⟩)
  · right
    rw [h1] at hk
    exact hk.symm

lemma nodup_keys_putBal (m : BalStore) (k : Addr) (v : Int)
    (h : (m.map Prod.fst).Nodup) : ((putBal m k v).map Prod.fst).Nodup := by
  induction m with
  | nil => simp [putBal]
  | cons q rest ih =>
      obtain ⟨k0, w⟩ := q
      rw [List.map_cons, List.nodup_cons] at h
      by_cases h0 : k0 = k
      · subst h0
        have heq : putBal ((k0, w) :: rest) k0 v = (k0, v) :: rest := by
          simp [putBal]
        rw [heq, List.map_cons, List.nodup_cons]
        exact h
      · have heq : putBal ((k0, w) :: rest) k v = (k0, w) :: putBal rest k v := by
          simp [putBal, h0]
        rw [heq, List.map_cons, List.nodup_cons]
        refine ⟨fun hmem => ?_, ih h.2⟩
        rcases mem_keys_putBal rest k k0 v hmem with h1 | h1
        · exact h.1 h1
        · exact h0 h1

lemma lookupBal_delBal_self (m : BalStore) (k : Addr)
    (h : (m.map Prod.fst).Nodup) : lookupBal (delBal m k) k = 0 := by
  induction m with
  | nil => simp [delBal, lookupBal]
  | cons q rest ih =>
      obtain ⟨k0, w⟩ := q
      rw [List.map_cons, List.nodup_cons] at h
      by_cases h0 : k0 = k
      · subst h0
        simp only [delBal, if_pos rfl]
        exact lookupBal_eq_zero_of_not_mem rest k0 h.1
      · simp [delBal, lookupBal, h0]
        exact ih h.2

/-! ### Operation result lemmas -/

lemma mint_eq_none_of_assert_failure (env : Env) (s : ContractState) (account : Addr)
    (amount : Int)
    (h : ¬ (amount ≥ 0 ∧ env.witness env.owner = true ∧ s.continueMinting = true)) :
    mint env s account amount = none := by
  simp [mint, h]

lemma mint_eq_some_zero (env : Env) (s : ContractState) (account : Addr)
    (hw : env.witness env.owner = true) (hg : s.continueMinting = true) :
    mint env s account 0 = some { ret := (), state := s, events := [], hooks := [] } := by
  simp [mint, hw, hg]

lemma mint_eq_some_pos (env : Env) (s : ContractState) (account : Addr) (amount : Int)
    (hpos : 0 < amount) (hw : env.witness env.owner = true)
    (hg : s.continueMinting = true) (hlen : account.length = 20) :
    mint env s account amount =
      some { ret := (),
             state := { s with
                        totalSupply := s.totalSupply + amount,
                        balances := putBal s.balances account
                          (lookupBal s.balances account + amount) },
             events := [{ fromA := none, toA := some account, amount := amount }],
             hooks := post_transfer env none (some account) amount none } := by
  simp [mint, balanceOf, hw, hg, hlen, hpos.le, hpos.ne']

lemma mint_eq_none_of_bad_length (env : Env) (s : ContractState) (account : Addr)
    (amount : Int) (hpos : 0 < amount) (hlen : account.length ≠ 20) :
    mint env s account amount = none := by
  by_cases h : amount ≥ 0 ∧ env.witness env.owner = true ∧ s.continueMinting = true
  · simp [mint, balanceOf, h, hlen, hpos.ne']
  · simp [mint, h]

lemma mint_eq_cases (env : Env) (s : ContractState) (account : Addr) (amount : Int)
    (r : OpResult Unit) (h : mint env s account amount = some r) :
    r = { ret := (), state := s, events := [], hooks := [] } ∨
    (0 < amount ∧ account.length = 20 ∧
      r = { ret := (),
            state := { s with
                       totalSupply := s.totalSupply + amount,
                       balances := putBal s.balances account
                         (lookupBal s.balances account + amount) },
            events := [{ fromA := none, toA := some account, amount := amount }],
            hooks := post_transfer env none (some account) amount none }) := by
  by_cases hA : amount ≥ 0 ∧ env.witness env.owner = true ∧ s.continueMinting = true
  · by_cases h0 : amount = 0
    · subst h0
      rw [mint_eq_some_zero env s account hA.2.1 hA.2.2] at h
      exact Or.inl (Option.some.inj h).symm
    · have hpos : 0 < amount := lt_of_le_of_ne hA.1 (Ne.symm h0)
      by_cases hlen : account.length = 20
      · rw [mint_eq_some_pos env s account amount hpos hA.2.1 hA.2.2 hlen] at h
        exact Or.inr ⟨hpos, hlen, (Option.some.inj h).symm⟩
      · rw [mint_eq_none_of_bad_length env s account amount hpos hlen] at h
        exact Option.noConfusion h
  · rw [mint_eq_none_of_assert_failure env s account amount hA] at h
    exact Option.noConfusion h

lemma burn_eq_some_zero (env : Env) (s : ContractState) :
    burn env s 0 = some { ret := (), state := s, events := [], hooks := [] } := by
  simp [burn]

lemma burn_eq_none_of_insufficient (env : Env) (s : ContractState) (amount : Int)
    (hpos : 0 < amount) (hlen : env.txSender.length = 20)
    (hlt : lookupBal s.balances env.txSender < amount) :
    burn env s amount = none := by
  simp [burn, balanceOf, hpos.le, hpos.ne', hlen, not_le.mpr hlt]

lemma burn_eq_some_pos (env : Env) (s : ContractState) (amount : Int)
    (hpos : 0 < amount) (hlen : env.txSender.length = 20)
    (hge : amount ≤ lookupBal s.balances env.txSender) :
    burn env s amount =
      some { ret := (),
             state := { s with
                        totalSupply := s.totalSupply - amount,
                        balances :=
                          if lookupBal s.balances env.txSender = amount then
                            delBal s.balances env.txSender
                          else
                            putBal s.balances env.txSender
                              (lookupBal s.balances env.txSender - amount) },
             events := [{ fromA := some env.txSender, toA := none, amount := amount }],
             hooks := post_transfer env (some env.txSender) none amount none } := by
  simp [burn, balanceOf, hpos.le, hpos.ne', hlen, hge]

lemma burn_eq_cases (env : Env) (s : ContractState) (amount : Int)
    (r : OpResult Unit) (h : burn env s amount = some r) :
    r = { ret := (), state := s, events := [], hooks := [] } ∨
    (0 < amount ∧ env.txSender.length = 20 ∧
      amount ≤ lookupBal s.balances env.txSender ∧
      r = { ret := (),
            state := { s with
                       totalSupply := s.totalSupply - amount,
                       balances :=
                         if lookupBal s.balances env.txSender = amount then
                           delBal s.balances env.txSender
                         else
                           putBal s.balances env.txSender
                             (lookupBal s.balances env.txSender - amount) },
            events := [{ fromA := some env.txSender, toA := none, amount := amount }],
            hooks := post_transfer env (some env.txSender) none amount none }) := by
  by_cases hamt : amount ≥ 0
  · by_cases h0 : amount = 0
    · subst h0
      rw [burn_eq_some_zero env s] at h
      exact Or.inl (Option.some.inj h).symm
    · have hpos : 0 < amount := lt_of_le_of_ne hamt (Ne.symm h0)
      by_cases hlen : env.txSender.length = 20
      · by_cases hge : amount ≤ lookupBal s.balances env.txSender
        · rw [burn_eq_some_pos env s amount hpos hlen hge] at h
          exact Or.inr ⟨hpos, hlen, hge, (Option.some.inj h).symm⟩
        · rw [burn_eq_none_of_insufficient env s amount hpos hlen (not_le.mp hge)] at h
          exact Option.noConfusion h
      · have : burn env s amount = none := by
          simp [burn, balanceOf, hpos.le, hpos.ne', hlen]
        rw [this] at h
        exact Option.noConfusion h
  · have : burn env s amount = none := by
      simp [burn, hamt]
    rw [this] at h
    exact Option.noConfusion h

/-- The balance store after a successful `transfer`'s mutation step (the
body of `if from_address != to_address and amount != 0`, with `afterDebit`
and `to_balance` inlined): debit `from_address` (delete on exact
exhaustion), then credit `to_address`. -/
def transferBalances (m : BalStore) (from_address to_address : Addr) (amount : Int) :
    BalStore :=
  if from_address ≠ to_address ∧ amount ≠ 0 then
    putBal
      (if lookupBal m from_address = amount then delBal m from_address
       else putBal m from_address (lookupBal m from_address - amount))
      to_address
      (lookupBal
         (if lookupBal m from_address = amount then delBal m from_address
          else putBal m from_address (lookupBal m from_address - amount))
         to_address + amount)
  else m

lemma transfer_eq_false_of_insufficient (env : Env) (s : ContractState)
    (from_address to_address : Addr) (amount : Int) (data : Data)
    (hf : from_address.length = 20) (ht : to_address.length = 20) (hamt : amount ≥ 0)
    (hlt : lookupBal s.balances from_address < amount) :
    transfer env s from_address to_address amount data =
      some { ret := false, state := s, events := [], hooks := [] } := by
  simp [transfer, hf, ht, hamt, hlt]

lemma transfer_eq_false_of_unauthorized (env : Env) (s : ContractState)
    (from_address to_address : Addr) (amount : Int) (data : Data)
    (hf : from_address.length = 20) (ht : to_address.length = 20) (hamt : amount ≥ 0)
    (hge : ¬ lookupBal s.balances from_address < amount)
    (hne : from_address ≠ env.callingScriptHash)
    (hwit : env.witness from_address = false) :
    transfer env s from_address to_address amount data =
      some { ret := false, state := s, events := [], hooks := [] } := by
  simp [transfer, hf, ht, hamt, hge, hne, hwit]

lemma transfer_eq_true (env : Env) (s : ContractState)
    (from_address to_address : Addr) (amount : Int) (data : Data)
    (hf : from_address.length = 20) (ht : to_address.length = 20) (hamt : amount ≥ 0)
    (hge : ¬ lookupBal s.balances from_address < amount)
    (hauth : from_address = env.callingScriptHash ∨ env.witness from_address = true) :
    transfer env s from_address to_address amount data =
      some { ret := true,
             state := { s with balances :=
               transferBalances s.balances from_address to_address amount },
             events := [{ fromA := some from_address, toA := some to_address,
                          amount := amount }],
             hooks := post_transfer env (some from_address) (some to_address)
               amount data } := by
  have hnot : ¬ (from_address ≠ env.callingScriptHash ∧
      ¬ env.witness from_address = true) := by
    rcases hauth with h | h
    · intro hc
      exact hc.1 h
    · intro hc
      exact hc.2 h
  simp only [transfer, transferBalances, if_neg hge, if_neg hnot]
  rw [if_pos (And.intro hf ht), if_pos hamt]

lemma transfer_eq_cases (env : Env) (s : ContractState)
    (from_address to_address : Addr) (amount : Int) (data : Data)
    (r : OpResult Bool) (h : transfer env s from_address to_address amount data = some r) :
    r = { ret := false, state := s, events := [], hooks := [] } ∨
    (amount ≥ 0 ∧ amount ≤ lookupBal s.balances from_address ∧
      r = { ret := true,
            state := { s with balances :=
              transferBalances s.balances from_address to_address amount },
            events := [{ fromA := some from_address, toA := some to_address,
                         amount := amount }],
            hooks := post_transfer env (some from_address) (some to_address)
              amount data }) := by
  by_cases hlen : from_address.length = 20 ∧ to_address.length = 20
  · by_cases hamt : amount ≥ 0
    · by_cases hlt : lookupBal s.balances from_address < amount
      · rw [transfer_eq_false_of_insufficient env s from_address to_address amount data
          hlen.1 hlen.2 hamt hlt] at h
        exact Or.inl (Option.some.inj h).symm
      · by_cases hauth : from_address = env.callingScriptHash ∨
            env.witness from_address = true
        · rw [transfer_eq_true env s from_address to_address amount data
            hlen.1 hlen.2 hamt hlt hauth] at h
          exact Or.inr ⟨hamt, not_lt.mp hlt, (Option.some.inj h).symm⟩
        · push_neg at hauth
          have hwit : env.witness from_address = false :=
            Bool.eq_false_iff.mpr (fun hc => by simp [hc] at hauth)
          rw [transfer_eq_false_of_unauthorized env s from_address to_address amount data
            hlen.1 hlen.2 hamt hlt hauth.1 hwit] at h
          exact Or.inl (Option.some.inj h).symm
    · have : transfer env s from_address to_address amount data = none := by
        simp [transfer, hlen, hamt]
      rw [this] at h
      exact Option.noConfusion h
  · have : transfer env s from_address to_address amount data = none := by
      simp [transfer, hlen]
    rw [this] at h
    exact Option.noConfusion h

lemma finishMinting_open (s : ContractState) (h : s.continueMinting = true) :
    finishMinting s =
      { ret := true, state := { s with continueMinting := false },
        events := [], hooks := [] } := by
  simp [finishMinting, h]

lemma finishMinting_closed (s : ContractState) (h : s.continueMinting = false) :
    finishMinting s = { ret := false, state := s, events := [], hooks := [] } := by
  simp [finishMinting, h]

lemma sumBal_transferBalances (m : BalStore) (from_address to_address : Addr)
    (amount : Int) :
    sumBal (transferBalances m from_address to_address amount) = sumBal m := by
  unfold transferBalances
  by_cases hc : from_address ≠ to_address ∧ amount ≠ 0
  · rw [if_pos hc]
    by_cases he : lookupBal m from_address = amount
    · rw [if_pos he, sumBal_putBal, sumBal_delBal]
      omega
    · rw [if_neg he, sumBal_putBal, sumBal_putBal]
      omega
  · rw [if_neg hc]

lemma pos_transferBalances (m : BalStore) (from_address to_address : Addr)
    (amount : Int) (hpos : ∀ p ∈ m, 0 < p.2) (hamt : 0 ≤ amount)
    (hge : amount ≤ lookupBal m from_address) :
    ∀ p ∈ transferBalances m from_address to_address amount, 0 < p.2 := by
  unfold transferBalances
  by_cases hc : from_address ≠ to_address ∧ amount ≠ 0
  · rw [if_pos hc]
    intro p hp
    have hposAfter : ∀ q ∈ (if lookupBal m from_address = amount then
        delBal m from_address
      else putBal m from_address (lookupBal m from_address - amount)), 0 < q.2 := by
      by_cases he : lookupBal m from_address = amount
      · rw [if_pos he]
        intro q hq
        exact hpos q (mem_delBal m from_address q hq)
      · rw [if_neg he]
        intro q hq
        rcases mem_putBal m from_address _ q hq with h1 | h1
        · exact hpos q h1
        · rw [h1]
          have : amount < lookupBal m from_address := lt_of_le_of_ne hge (fun hx => he hx.symm)
          simpa using by omega
    rcases mem_putBal _ to_address _ p hp with h1 | h1
    · exact hposAfter p h1
    · rw [h1]
      have h2 : 0 ≤ lookupBal (if lookupBal m from_address = amount then
          delBal m from_address
        else putBal m from_address (lookupBal m from_address - amount)) to_address :=
        lookupBal_nonneg _ to_address hposAfter
      have h3 : 0 < amount := lt_of_le_of_ne hamt (Ne.symm hc.2)
      simpa using by omega
  · rw [if_neg hc]
    exact hpos

/-! ### Deployment lemmas -/

lemma deployLoop_supply (holders : List (Addr × Int)) (store : BalStore) (ts : Int) :
    (deployLoop holders store ts).2.1 = ts + (holders.map Prod.snd).sum := by
  induction holders generalizing store ts with
  | nil => simp [deployLoop]
  | cons q rest ih =>
      obtain ⟨holder, amount⟩ := q
      simp only [deployLoop, List.map_cons, List.sum_cons]
      rw [ih]
      ring

lemma deployLoop_sum (holders : List (Addr × Int)) (store : BalStore) (ts : Int)
    (hnodup : (holders.map Prod.fst).Nodup)
    (hfresh : ∀ k ∈ holders.map Prod.fst, k ∉ store.map Prod.fst) :
    sumBal (deployLoop holders store ts).1 = sumBal store + (holders.map Prod.snd).sum := by
  induction holders generalizing store ts with
  | nil => simp [deployLoop]
  | cons q rest ih =>
      obtain ⟨holder, amount⟩ := q
      rw [List.map_cons, List.nodup_cons] at hnodup
      have hfresh0 : holder ∉ store.map Prod.fst :=
        hfresh holder (by rw [List.map_cons]; exact List.mem_cons_self _ _)
      have hfresh' : ∀ k ∈ rest.map Prod.fst, k ∉ (putBal store holder amount).map Prod.fst := by
        intro k hk hmem
        rcases mem_keys_putBal store holder k amount hmem with h1 | h1
        · exact hfresh k (by rw [List.map_cons]; exact List.mem_cons_of_mem _ hk) h1
        · exact hnodup.1 (h1 ▸ hk)
      simp only [deployLoop]
      rw [ih (putBal store holder amount) (ts + amount) hnodup.2 hfresh',
        sumBal_putBal, lookupBal_eq_zero_of_not_mem store holder hfresh0,
        List.map_cons, List.sum_cons]
      ring

lemma deployLoop_pos (holders : List (Addr × Int)) (store : BalStore) (ts : Int)
    (hstore : ∀ p ∈ store, 0 < p.2) (hh : ∀ p ∈ holders, 0 < p.2) :
    ∀ p ∈ (deployLoop holders store ts).1, 0 < p.2 := by
  induction holders generalizing store ts with
  | nil => simpa [deployLoop] using hstore
  | cons q rest ih =>
      obtain ⟨holder, amount⟩ := q
      simp only [deployLoop]
      refine ih (putBal store holder amount) (ts + amount) ?_ ?_
      · intro p hp
        rcases mem_putBal store holder amount p hp with h1 | h1
        · exact hstore p h1
        · rw [h1]
          simpa using hh (holder, amount) (List.mem_cons_self _ _)
      · intro p hp
        exact hh p (List.mem_cons_of_mem _ hp)

lemma deploy_conservation (holders : List (Addr × Int)) (cm : Bool)
    (hnodup : (holders.map Prod.fst).Nodup) :
    sumBal (deploy holders cm).1.balances = (deploy holders cm).1.totalSupply := by
  simp only [deploy]
  rw [deployLoop_sum holders [] 0 hnodup (by simp), deployLoop_supply]
  simp [sumBal]

/-! ### Single-step preservation lemmas -/

lemma step_continueMinting (s s' : ContractState) (h : Step s s') :
    s'.continueMinting = true → s.continueMinting = true := by
  cases h with
  | ofTransfer env s f t amount data r hr =>
      rcases transfer_eq_cases env s f t amount data r hr with h1 | ⟨_, _, h1⟩ <;>
        (rw [h1]; exact id)
  | ofMint env s account amount r hr =>
      rcases mint_eq_cases env s account amount r hr with h1 | ⟨_, _, h1⟩ <;>
        (rw [h1]; exact id)
  | ofBurn env s amount r hr =>
      rcases burn_eq_cases env s amount r hr with h1 | ⟨_, _, _, h1⟩ <;>
        (rw [h1]; exact id)
  | ofFinishMinting s =>
      by_cases hg : s.continueMinting = true
      · exact fun _ => hg
      · rw [finishMinting_closed s (Bool.eq_false_iff.mpr hg)]
        exact id

lemma step_sum (s s' : ContractState) (h : Step s s')
    (hinv : sumBal s.balances = s.totalSupply) :
    sumBal s'.balances = s'.totalSupply := by
  cases h with
  | ofTransfer env s f t amount data r hr =>
      rcases transfer_eq_cases env s f t amount data r hr with h1 | ⟨_, _, h1⟩
      · rw [h1]
        exact hinv
      · rw [h1]
        simpa [sumBal_transferBalances] using hinv
  | ofMint env s account amount r hr =>
      rcases mint_eq_cases env s account amount r hr with h1 | ⟨_, _, h1⟩
      · rw [h1]
        exact hinv
      · rw [h1]
        simp only [sumBal_putBal]
        omega
  | ofBurn env s amount r hr =>
      rcases burn_eq_cases env s amount r hr with h1 | ⟨_, _, _, h1⟩
      · rw [h1]
        exact hinv
      · rw [h1]
        by_cases he : lookupBal s.balances env.txSender = amount
        · simp only [if_pos he, sumBal_delBal]
          omega
        · simp only [if_neg he, sumBal_putBal]
          omega
  | ofFinishMinting s =>
      by_cases hg : s.continueMinting = true
      · rw [finishMinting_open s hg]
        exact hinv
      · rw [finishMinting_closed s (Bool.eq_false_iff.mpr hg)]
        exact hinv

lemma step_pos (s s' : ContractState) (h : Step s s')
    (hpos : ∀ p ∈ s.balances, 0 < p.2) :
    ∀ p ∈ s'.balances, 0 < p.2 := by
  cases h with
  | ofTransfer env s f t amount data r hr =>
      rcases transfer_eq_cases env s f t amount data r hr with h1 | ⟨hamt, hge, h1⟩
      · rw [h1]
        exact hpos
      · rw [h1]
        exact pos_transferBalances s.balances f t amount hpos hamt hge
  | ofMint env s account amount r hr =>
      rcases mint_eq_cases env s account amount r hr with h1 | ⟨hamt, _, h1⟩
      · rw [h1]
        exact hpos
      · rw [h1]
        intro p hp
        rcases mem_putBal s.balances account _ p hp with h2 | h2
        · exact hpos p h2
        · rw [h2]
          have := lookupBal_nonneg s.balances account hpos
          simpa using by omega
  | ofBurn env s amount r hr =>
      rcases burn_eq_cases env s amount r hr with h1 | ⟨hamt, _, hge, h1⟩
      · rw [h1]
        exact hpos
      · rw [h1]
        by_cases he : lookupBal s.balances env.txSender = amount
        · rw [if_pos he]
          intro p hp
          exact hpos p (mem_delBal s.balances env.txSender p hp)
        · rw [if_neg he]
          intro p hp
          rcases mem_putBal s.balances env.txSender _ p hp with h2 | h2
          · exact hpos p h2
          · rw [h2]
            have : amount < lookupBal s.balances env.txSender :=
              lt_of_le_of_ne hge (fun hx => he hx.symm)
            simpa using by omega
  | ofFinishMinting s =>
      by_cases hg : s.continueMinting = true
      · rw [finishMinting_open s hg]
        exact hpos
      · rw [finishMinting_closed s (Bool.eq_false_iff.mpr hg)]
        exact hpos

lemma reach_continueMinting (s s' : ContractState)
    (h : Relation.ReflTransGen Step s s') :
    s'.continueMinting = true → s.continueMinting = true := by
  induction h with
  | refl => exact id
  | tail h1 h2 ih => exact fun hg => ih (step_continueMinting _ _ h2 hg)

lemma reach_closed (s s' : ContractState) (hclosed : s.continueMinting = false)
    (h : Relation.ReflTransGen Step s s') : s'.continueMinting = false := by
  by_cases hg : s'.continueMinting = true
  · rw [reach_continueMinting s s' h hg] at hclosed
    exact absurd hclosed (by simp)
  · exact Bool.eq_false_iff.mpr hg

/-! ### The claims -/

/-- C1: after deployment from the HOLDERS table (a Python dict, so its
keys are pairwise distinct), every state reachable by any sequence of
completed `transfer`, `mint`, `burn` (and `finishMinting`) operations has
the sum of all stored balances equal to the value returned by
`totalSupply()`. An operation that returns `false` leaves the state
untouched (see `transfer_eq_cases`), and an aborted operation has no
successor state at all (the NEO host rolls the transaction back), so the
invariant holds after every operation however it ends. -/
theorem c1_sum_balances_eq_totalSupply (holders : List (Addr × Int)) (cm : Bool)
    (s : ContractState) (hnodup : (holders.map Prod.fst).Nodup)
    (hreach : Relation.ReflTransGen Step (deploy holders cm).1 s) :
    sumBal s.balances = totalSupply s := by
  induction hreach with
  | refl => exact deploy_conservation holders cm hnodup
  | tail h1 h2 ih => exact step_sum _ _ h2 ih

/-- Witness for C1: the state deployed from one holder with balance 5
satisfies the conservation invariant. -/
theorem c1_sum_balances_eq_totalSupply_witness :
    sumBal (deploy [(addrA, 5)] true).1.balances =
      totalSupply (deploy [(addrA, 5)] true).1 :=
  c1_sum_balances_eq_totalSupply [(addrA, 5)] true (deploy [(addrA, 5)] true).1
    (by decide) Relation.ReflTransGen.refl

/-- C2 counterexample: `_deploy` writes each genesis amount with
`put(holder, amount)` unconditionally, so a genesis holder table
containing the amount 0 produces a reachable state (the deployed state
itself) with a stored balance entry whose value is exactly zero. -/
theorem c2_counterexample_zero_genesis_entry :
    (addrA, (0 : Int)) ∈ (deploy [(addrA, 0)] true).1.balances := by
  decide

/-- C2 (amended): provided every amount in the genesis holder table is
strictly positive, no reachable state stores a zero-valued balance entry:
`transfer` and `burn` delete an account's entry when its balance reaches
exactly zero, and no post-deployment operation ever writes a zero value
under an account key. -/
theorem c2_no_zero_balance_stored (holders : List (Addr × Int)) (cm : Bool)
    (s : ContractState) (hpos : ∀ p ∈ holders, 0 < p.2)
    (hreach : Relation.ReflTransGen Step (deploy holders cm).1 s) :
    ∀ p ∈ s.balances, p.2 ≠ 0 := by
  have hp : ∀ p ∈ s.balances, 0 < p.2 := by
    induction hreach with
    | refl =>
        simpa [deploy] using deployLoop_pos holders [] 0 (by simp) hpos
    | tail h1 h2 ih => exact step_pos _ _ h2 ih
  exact fun p hmem => (hp p hmem).ne'

/-- Witness for C2 (amended): in the state deployed from a single holder
with balance 5, that holder's stored entry is nonzero. -/
theorem c2_no_zero_balance_stored_witness : ((addrA, (5 : Int)) : Addr × Int).2 ≠ 0 :=
  c2_no_zero_balance_stored [(addrA, 5)] true (deploy [(addrA, 5)] true).1
    (by decide) Relation.ReflTransGen.refl (addrA, 5) (by decide)

/-- C3: for valid 20-byte addresses and a nonnegative amount, a transfer
whose sender balance is insufficient — or whose sender is not the calling
script hash and fails the witness check — returns `false`, leaves the
whole state (all balances and the total supply) unchanged, fires no
`Transfer` event and makes no payment-hook contract call. -/
theorem c3_transfer_reportable_failure (env : Env) (s : ContractState) (A B : Addr)
    (amt : Int) (d : Data) (hA : A.length = 20) (hB : B.length = 20) (hamt : amt ≥ 0)
    (hfail : lookupBal s.balances A < amt ∨
      (amt ≤ lookupBal s.balances A ∧ A ≠ env.callingScriptHash ∧
        env.witness A = false)) :
    transfer env s A B amt d =
      some { ret := false, state := s, events := [], hooks := [] } := by
  rcases hfail with h | ⟨hge, hne, hwit⟩
  · exact transfer_eq_false_of_insufficient env s A B amt d hA hB hamt h
  · exact transfer_eq_false_of_unauthorized env s A B amt d hA hB hamt
      (not_lt.mpr hge) hne hwit

/-- Witness for C3: transferring 5 from an empty-balance account returns
`false` and changes nothing. -/
theorem c3_transfer_reportable_failure_witness :
    transfer envAllow (deploy [] true).1 addrA addrB 5 none =
      some { ret := false, state := (deploy [] true).1, events := [], hooks := [] } :=
  c3_transfer_reportable_failure envAllow (deploy [] true).1 addrA addrB 5 none
    (by decide) (by decide) (by decide) (Or.inl (by decide))

/-- C4: an authorized transfer whose balance check passes and with
`from == to` or `amount == 0` returns `true`, leaves the state
byte-for-byte unchanged (the mutation step is skipped), still fires
exactly one `Transfer(from, to, amount)` event and still makes the
payment-hook contract call exactly when the recipient is a contract. -/
theorem c4_transfer_degenerate_notifies (env : Env) (s : ContractState) (A B : Addr)
    (amt : Int) (d : Data) (hA : A.length = 20) (hB : B.length = 20) (hamt : amt ≥ 0)
    (hge : amt ≤ lookupBal s.balances A)
    (hauth : A = env.callingScriptHash ∨ env.witness A = true)
    (hdeg : A = B ∨ amt = 0) :
    transfer env s A B amt d =
      some { ret := true, state := s,
             events := [{ fromA := some A, toA := some B, amount := amt }],
             hooks := if env.isContract B then
                 [{ fromA := some A, toA := B, amount := amt, data := d }]
               else [] } := by
  have h1 := transfer_eq_true env s A B amt d hA hB hamt (not_lt.mpr hge) hauth
  have h2 : transferBalances s.balances A B amt = s.balances := by
    unfold transferBalances
    rw [if_neg]
    intro hc
    rcases hdeg with h | h
    · exact hc.1 h
    · exact hc.2 h
  rw [h1, h2]
  simp [post_transfer]

/-- Witness for C4: a zero-amount transfer from the deployed holder
returns `true`, changes nothing and fires one event. -/
theorem c4_transfer_degenerate_notifies_witness :
    transfer envAllow (deploy [(addrA, 5)] true).1 addrA addrB 0 none =
      some { ret := true, state := (deploy [(addrA, 5)] true).1,
             events := [{ fromA := some addrA, toA := some addrB, amount := 0 }],
             hooks := if envAllow.isContract addrB then
                 [{ fromA := some addrA, toA := addrB, amount := 0, data := none }]
               else [] } :=
  c4_transfer_degenerate_notifies envAllow (deploy [(addrA, 5)] true).1 addrA addrB 0
    none (by decide) (by decide) (by decide) (by decide)
    (Or.inl (by decide)) (Or.inr rfl)

/-- C5: for any account `X` and amount `n > 0`: `mint(X, n)` without the
owner's witness aborts (no successor state — the host rolls back, so no
state change); with the owner's witness and the gate open it increases
`totalSupply()` by exactly `n` and `balanceOf(X)` by exactly `n`, fires
one `Transfer` event whose origin is the sentinel `none` ("no sender")
and runs `post_transfer` with that same sentinel origin; and `mint(X, 0)`
under the same authorization completes with no state change, no event and
no hook call. -/
theorem c5_mint_spec (env : Env) (s : ContractState) (X : Addr) (n : Int)
    (hn : 0 < n) :
    (env.witness env.owner = false → mint env s X n = none) ∧
    (env.witness env.owner = true → s.continueMinting = true → X.length = 20 →
      (mint env s X n).map (fun r => totalSupply r.state) = some (totalSupply s + n) ∧
      (mint env s X n).map (fun r => lookupBal r.state.balances X) =
        some (lookupBal s.balances X + n) ∧
      (mint env s X n).map (fun r => r.events) =
        some [{ fromA := none, toA := some X, amount := n }] ∧
      (mint env s X n).map (fun r => r.hooks) =
        some (post_transfer env none (some X) n none)) ∧
    (env.witness env.owner = true → s.continueMinting = true →
      mint env s X 0 = some { ret := (), state := s, events := [], hooks := [] }) := by
  refine ⟨fun hw => ?_, fun hw hg hlen => ?_, fun hw hg => mint_eq_some_zero env s X hw hg⟩
  · exact mint_eq_none_of_assert_failure env s X n (by simp [hw])
  · rw [mint_eq_some_pos env s X n hn hw hg hlen]
    simp [totalSupply, lookupBal_putBal_self]

/-- Witness for C5: minting 7 to `addrB` in the deployed state with the
gate open and an all-true witness oracle. -/
theorem c5_mint_spec_witness :
    (envAllow.witness envAllow.owner = false →
      mint envAllow (deploy [] true).1 addrB 7 = none) ∧
    (envAllow.witness envAllow.owner = true →
      (deploy [] true).1.continueMinting = true → addrB.length = 20 →
      (mint envAllow (deploy [] true).1 addrB 7).map (fun r => totalSupply r.state) =
        some (totalSupply (deploy [] true).1 + 7) ∧
      (mint envAllow (deploy [] true).1 addrB 7).map
          (fun r => lookupBal r.state.balances addrB) =
        some (lookupBal (deploy [] true).1.balances addrB + 7) ∧
      (mint envAllow (deploy [] true).1 addrB 7).map (fun r => r.events) =
        some [{ fromA := none, toA := some addrB, amount := 7 }] ∧
      (mint envAllow (deploy [] true).1 addrB 7).map (fun r => r.hooks) =
        some (post_transfer envAllow none (some addrB) 7 none)) ∧
    (envAllow.witness envAllow.owner = true →
      (deploy [] true).1.continueMinting = true →
      mint envAllow (deploy [] true).1 addrB 0 =
        some { ret := (), state := (deploy [] true).1, events := [], hooks := [] }) :=
  c5_mint_spec envAllow (deploy [] true).1 addrB 7 (by decide)

/-- C6: for `n > 0`, `burn(n)` by a signer whose balance is below `n`
aborts (there is no `return false` path — the result is `none`, not
`some` of a `false`-like value, and no successor state exists); with a
sufficient balance it decrements `totalSupply()` by `n`, decrements the
signer's balance by `n` — deleting the signer's storage entry when the
balance is exactly exhausted — fires one `Transfer` event whose
destination is the sentinel `none` ("no recipient") and runs
`post_transfer` with that sentinel destination (which therefore makes no
contract call). -/
theorem c6_burn_spec (env : Env) (s : ContractState) (n : Int) (hn : 0 < n)
    (hlen : env.txSender.length = 20) :
    (lookupBal s.balances env.txSender < n → burn env s n = none) ∧
    (n ≤ lookupBal s.balances env.txSender →
      (burn env s n).map (fun r => totalSupply r.state) = some (totalSupply s - n) ∧
      (burn env s n).map (fun r => r.state.balances) =
        some (if lookupBal s.balances env.txSender = n then
            delBal s.balances env.txSender
          else
            putBal s.balances env.txSender (lookupBal s.balances env.txSender - n)) ∧
      (burn env s n).map (fun r => r.events) =
        some [{ fromA := some env.txSender, toA := none, amount := n }] ∧
      (burn env s n).map (fun r => r.hooks) =
        some (post_transfer env (some env.txSender) none n none)) := by
  refine ⟨fun hlt => burn_eq_none_of_insufficient env s n hn hlen hlt, fun hge => ?_⟩
  rw [burn_eq_some_pos env s n hn hlen hge]
  simp [totalSupply]

/-- Witness for C6: burning 5 exactly drains the deployed holder `addrA`
(the transaction sender in `envAllow`), and burning from a sufficient
balance yields the stated result. -/
theorem c6_burn_spec_witness :
    (lookupBal (deploy [(addrA, 5)] true).1.balances envAllow.txSender < 5 →
      burn envAllow (deploy [(addrA, 5)] true).1 5 = none) ∧
    (5 ≤ lookupBal (deploy [(addrA, 5)] true).1.balances envAllow.txSender →
      (burn envAllow (deploy [(addrA, 5)] true).1 5).map (fun r => totalSupply r.state) =
        some (totalSupply (deploy [(addrA, 5)] true).1 - 5) ∧
      (burn envAllow (deploy [(addrA, 5)] true).1 5).map (fun r => r.state.balances) =
        some (if lookupBal (deploy [(addrA, 5)] true).1.balances envAllow.txSender = 5 then
            delBal (deploy [(addrA, 5)] true).1.balances envAllow.txSender
          else
            putBal (deploy [(addrA, 5)] true).1.balances envAllow.txSender
              (lookupBal (deploy [(addrA, 5)] true).1.balances envAllow.txSender - 5)) ∧
      (burn envAllow (deploy [(addrA, 5)] true).1 5).map (fun r => r.events) =
        some [{ fromA := some envAllow.txSender, toA := none, amount := 5 }] ∧
      (burn envAllow (deploy [(addrA, 5)] true).1 5).map (fun r => r.hooks) =
        some (post_transfer envAllow (some envAllow.txSender) none 5 none)) :=
  c6_burn_spec envAllow (deploy [(addrA, 5)] true).1 5 (by decide) (by decide)

/-- C7: from any state with the minting gate open, the first
`finishMinting()` returns `true` and closes the gate; in every state
reachable from that point (by any sequence of completed operations),
`finishMinting()` returns `false` and leaves the state unchanged, and
every `mint` call — for any environment, hence even with the owner's
witness — aborts. -/
theorem c7_finishMinting_one_shot (s : ContractState)
    (hopen : s.continueMinting = true) :
    (finishMinting s).ret = true ∧
    (finishMinting s).state.continueMinting = false ∧
    ∀ s', Relation.ReflTransGen Step (finishMinting s).state s' →
      (finishMinting s').ret = false ∧ (finishMinting s').state = s' ∧
      ∀ (env : Env) (X : Addr) (n : Int), mint env s' X n = none := by
  rw [finishMinting_open s hopen]
  refine ⟨rfl, rfl, fun s' hreach => ?_⟩
  have hclosed : s'.continueMinting = false := reach_closed _ s' rfl hreach
  rw [finishMinting_closed s' hclosed]
  exact ⟨rfl, rfl, fun env X n =>
    mint_eq_none_of_assert_failure env s' X n (by simp [hclosed])⟩

/-- Witness for C7: after closing the gate on the deployed state, even an
owner-witnessed `mint` aborts. -/
theorem c7_finishMinting_one_shot_witness :
    mint envAllow (finishMinting (deploy [] true).1).state addrA 5 = none :=
  ((c7_finishMinting_one_shot (deploy [] true).1 (by decide)).2.2
    (finishMinting (deploy [] true).1).state Relation.ReflTransGen.refl).2.2
    envAllow addrA 5

/-- C8: once the minting gate is closed it never reopens: every state
reachable by any sequence of completed post-deployment operations
(`transfer`, `mint`, `burn`, `finishMinting`; the queries `totalSupply`
and `balanceOf` write nothing) from a closed-gate state still has the
gate closed. -/
theorem c8_gate_never_reopens (s s' : ContractState)
    (hclosed : s.continueMinting = false)
    (hreach : Relation.ReflTransGen Step s s') :
    s'.continueMinting = false :=
  reach_closed s s' hclosed hreach

/-- Witness for C8: the gate stays closed across a burn step from a
closed-gate deployed state. -/
theorem c8_gate_never_reopens_witness :
    (deploy [(addrA, 5)] false).1.continueMinting = false :=
  c8_gate_never_reopens (deploy [(addrA, 5)] false).1 (deploy [(addrA, 5)] false).1
    (by decide) Relation.ReflTransGen.refl

/-- C9: when `mint(X, n)` succeeds (owner witness present, gate open,
`n >= 0`, valid address) and is immediately followed by a `burn(n)` whose
resolved target — the transaction's originating signer — is `X`, the burn
also completes and the resulting `totalSupply()` and `balanceOf(X)` equal
their pre-mint values. The two structural hypotheses (distinct storage
keys, nonnegative stored balance of `X`) hold in every reachable state by
`c1`/`c2`-style invariants; they rule out degenerate raw states only. -/
theorem c9_mint_burn_roundtrip (env : Env) (s : ContractState) (X : Addr) (n : Int)
    (hn : 0 ≤ n) (hX : X = env.txSender) (hlen : X.length = 20)
    (hw : env.witness env.owner = true) (hg : s.continueMinting = true)
    (hnodup : (s.balances.map Prod.fst).Nodup)
    (hbal : 0 ≤ lookupBal s.balances X) :
    ((mint env s X n).bind (fun r => burn env r.state n)).map
        (fun r2 => (totalSupply r2.state, lookupBal r2.state.balances X)) =
      some (totalSupply s, lookupBal s.balances X) := by
  rcases eq_or_lt_of_le hn with h0 | hpos
  · rw [← h0, mint_eq_some_zero env s X hw hg]
    simp [burn_eq_some_zero]
  · have hsender : env.txSender = X := hX.symm
    have hlen' : env.txSender.length = 20 := by rw [hsender]; exact hlen
    rw [mint_eq_some_pos env s X n hpos hw hg hlen]
    have hlook : lookupBal (putBal s.balances X (lookupBal s.balances X + n))
        env.txSender = lookupBal s.balances X + n := by
      rw [hsender]
      exact lookupBal_putBal_self s.balances X _
    have hge' : n ≤ lookupBal (putBal s.balances X (lookupBal s.balances X + n))
        env.txSender := by
      rw [hlook]
      omega
    have hburn := burn_eq_some_pos env
      { s with totalSupply := s.totalSupply + n,
               balances := putBal s.balances X (lookupBal s.balances X + n) }
      n hpos hlen' hge'
    simp only [Option.some_bind]
    rw [hburn]
    simp only [Option.map_some', totalSupply, hlook]
    by_cases hzero : lookupBal s.balances X + n = n
    · rw [if_pos hzero]
      have h0 : lookupBal s.balances X = 0 := by omega
      rw [hsender]
      rw [lookupBal_delBal_self _ X (nodup_keys_putBal s.balances X _ hnodup), h0]
      simp
    · rw [if_neg hzero]
      rw [hsender]
      rw [lookupBal_putBal_self]
      simp

/-- Witness for C9: minting 3 to the deployed holder `addrA` (the
transaction sender in `envAllow`) and burning 3 restores the supply and
balance. -/
theorem c9_mint_burn_roundtrip_witness :
    ((mint envAllow (deploy [(addrA, 5)] true).1 addrA 3).bind
        (fun r => burn envAllow r.state 3)).map
      (fun r2 => (totalSupply r2.state, lookupBal r2.state.balances addrA)) =
      some (totalSupply (deploy [(addrA, 5)] true).1,
        lookupBal (deploy [(addrA, 5)] true).1.balances addrA) :=
  c9_mint_burn_roundtrip envAllow (deploy [(addrA, 5)] true).1 addrA 3
    (by decide) rfl (by decide) (by decide) (by decide) (by decide) (by decide)

/-- C10: `mint` checks the account's address length only on the nonzero
path: with the owner's witness and the gate open, `mint(account, 0)` for
an address of any other length completes with no state change, while
`mint(account, n)` for `n > 0` aborts — the 20-byte assertion is reached
only inside the `amount != 0` branch via the nested `balanceOf` call. -/
theorem c10_mint_length_check_only_nonzero (env : Env) (s : ContractState)
    (account : Addr) (n : Int) (hlen : account.length ≠ 20)
    (hw : env.witness env.owner = true) (hg : s.continueMinting = true) :
    mint env s account 0 = some { ret := (), state := s, events := [], hooks := [] } ∧
    (0 < n → mint env s account n = none) :=
  ⟨mint_eq_some_zero env s account hw hg,
   fun hn => mint_eq_none_of_bad_length env s account n hn hlen⟩

/-- Witness for C10: a 3-byte address can be minted 0 tokens but not 5. -/
theorem c10_mint_length_check_only_nonzero_witness :
    mint envAllow (deploy [] true).1 [1, 2, 3] 0 =
      some { ret := (), state := (deploy [] true).1, events := [], hooks := [] } ∧
    ((0 : Int) < 5 → mint envAllow (deploy [] true).1 [1, 2, 3] 5 = none) :=
  c10_mint_length_check_only_nonzero envAllow (deploy [] true).1 [1, 2, 3] 5
    (by decide) (by decide) (by decide)

end NEP17
